import Mathlib

/-
Shallow embedding of `src/main.c` of the netspeed repository: a polling
network-throughput monitor.  Machine integers are modelled as `Nat` with
explicit reduction modulo `2^64` (C `unsigned long long`) or `2^32`
(C `unsigned int`) exactly where the C arithmetic wraps.  The C `double`
computations of `format_human_readable` are modelled exactly: every IEEE-754
binary64 value reached by that code is `≥ 1`, hence an integer multiple of
`2^(-52)`, so a double is represented by its value scaled by `2^52`
(a `Nat`), and each C operation is the correctly rounded (round to nearest,
ties to even) result required by IEEE-754, which is what the hardware
computes and what glibc `printf` rounding performs.
-/

namespace Netspeed

/-- MAX_INTERFACES from src/main.c line 17. -/
def MAX_INTERFACES : Nat := 32

/-- MAX_NAME_LEN from src/main.c line 19: size of `interface_t.name`
including the terminating NUL, so 15 payload characters. -/
def MAX_NAME_LEN : Nat := 16

/-- DECIMAL_BASE from src/main.c line 20. -/
def DECIMAL_BASE : Nat := 1000

/-- Modulus of C `unsigned long long` (64-bit) arithmetic. -/
def U64 : Nat := 2 ^ 64

/-- Modulus of C `unsigned int` (32-bit) arithmetic. -/
def U32 : Nat := 2 ^ 32

/-- The struct `interface_t` of src/main.c lines 22-26.  The 15-byte name
truncation is applied when a value is stored by the reader. -/
structure interface_t where
  name : String
  rx_bytes : Nat
  tx_bytes : Nat
deriving DecidableEq

/-- A zero-initialised `interface_t`, as produced by the `= {}` array
initialisers of src/main.c lines 217-218. -/
def zero_interface : interface_t := ⟨"", 0, 0⟩

/-- The process-wide configuration of src/main.c lines 28-30:
`polling_interval` and the explicit interface allow-list
(`interface_filter` together with `filter_count`, here a single list whose
length is `filter_count`). -/
structure config where
  polling_interval : Nat
  interface_filter : List String
deriving DecidableEq

/-- The interval option handling of src/main.c lines 191-197: `atoi(optarg)`
(an `int`, the argument here) is assigned to the `unsigned int`
`polling_interval`, i.e. reduced modulo `2^32`; the guard
`polling_interval < 1` then rejects (`none`, modelling
`output_error(optarg, "Invalid polling interval"); return 1;`) exactly when
the converted value is zero. -/
def set_polling_interval (arg : Int) : Option Nat :=
  let v : Nat := (arg % (U32 : Int)).toNat
  if v < 1 then none else some v

/-- Boolean test that the character list `s` starts with the character list
`p`.  Used to give the exact semantics of the anchored POSIX extended
regular expression of `is_valid_interface`. -/
def starts_with_chars : List Char → List Char → Bool
  | [], _ => true
  | _ :: _, [] => false
  | p :: ps, c :: cs => p == c && starts_with_chars ps cs

/-- The function `is_valid_interface` of src/main.c lines 44-56.  The
compiled-once pattern `"^(eth|wlan|enp|wlp)"` with `REG_EXTENDED` matches a
name exactly when the name starts with one of the four literal strings
(the `^` anchors the alternation at the start; `regexec` otherwise searches
anywhere).  The `regcomp` failure branch never fires for this fixed valid
pattern and is not modelled. -/
def is_valid_interface (name : String) : Bool :=
  starts_with_chars "eth".toList name.toList ||
    starts_with_chars "wlan".toList name.toList ||
    starts_with_chars "enp".toList name.toList ||
    starts_with_chars "wlp".toList name.toList

/-- The filter-list scan of src/main.c lines 121-130: a linear scan with
`strcmp` equality and early exit, i.e. exact case-sensitive string
equality with some list entry. -/
def filter_match (flt : List String) (name : String) : Bool :=
  flt.any (fun f => name == f)

/-- The interface-inclusion decision of src/main.c lines 120-135: with a
non-empty filter list (`filter_count > 0`), exact match against the list;
otherwise the `is_valid_interface` pattern heuristic. -/
def should_include (cfg : config) (name : String) : Bool :=
  if 0 < cfg.interface_filter.length then filter_match cfg.interface_filter name
  else is_valid_interface name

/-- One text line of the counter source (`/proc/net/dev`), as seen by
`read_interfaces` after `fgets`: whether the line contains a colon
(`strchr(line, ':')`), the raw text before the first colon, and the list of
unsigned integers that `sscanf` can parse in sequence after the colon
(`sscanf(...) == 16` holds exactly when at least 16 integers parse, since
the format stops at its 16 conversions). -/
structure RawLine where
  has_colon : Bool
  raw_name : String
  fields : List Nat
deriving DecidableEq

/-- The leading-space strip of src/main.c lines 117-118
(`while (*name == ' ') name++;`). -/
def strip_spaces (s : String) : String :=
  (s.toList.dropWhile (fun c => c == ' ')).asString

/-- The name truncation of src/main.c line 152
(`snprintf(interfaces[count].name, MAX_NAME_LEN, "%.15s", name)`):
at most `MAX_NAME_LEN - 1 = 15` characters are kept. -/
def truncate_name (s : String) : String :=
  (s.toList.take (MAX_NAME_LEN - 1)).asString

/-- Processing of one data line in the body of the `while` loop of
src/main.c lines 108-155: skip when there is no colon; strip leading
spaces from the name; skip when the inclusion decision rejects the name;
skip when fewer than 16 unsigned integers parse after the colon; otherwise
store the truncated name with field 1 (`rx_bytes`) and field 9
(`tx_bytes`). -/
def parse_line (cfg : config) (l : RawLine) : Option interface_t :=
  if !l.has_colon then none
  else
    let name := strip_spaces l.raw_name
    if !should_include cfg name then none
    else if 16 ≤ l.fields.length then
      some ⟨truncate_name name, l.fields.getD 0 0, l.fields.getD 8 0⟩
    else none

/-- The collection loop of src/main.c lines 108-155:
`while (fgets(...) && count < MAX_INTERFACES)`, incrementing `count` only
when a line is stored.  The guard is tested before each line is consumed,
so once `MAX_INTERFACES` entries are stored all remaining lines are
ignored. -/
def collect (cfg : config) : List RawLine → Nat → List interface_t
  | [], _ => []
  | l :: ls, count =>
    if MAX_INTERFACES ≤ count then []
    else
      match parse_line cfg l with
      | some itf => itf :: collect cfg ls (count + 1)
      | none => collect cfg ls count

/-- One emitted line on stdout: either the structured error form of
`output_error` (src/main.c lines 78-82, carrying the `text` and `tooltip`
payloads of the printed JSON) or the normal sample form of `output_json`
(src/main.c lines 84-92, carrying the two aggregate rates that are then
formatted and padded into the printed JSON). -/
inductive output_event where
  | error (text tooltip : String)
  | sample (rx_rate tx_rate : Nat)
deriving DecidableEq

/-- Recognises the normal sample output form. -/
def is_sample : output_event → Bool
  | output_event.error _ _ => false
  | output_event.sample _ _ => true

/-- Writing a collected list into a C array starting at index 0: indices
below the list length are overwritten, the rest of the array keeps its
previous (stale) contents, as C array writes do. -/
def write_array (arr : Nat → interface_t) (l : List interface_t) : Nat → interface_t :=
  fun i => l.getD i (arr i)

/-- The function `read_interfaces` of src/main.c lines 94-159.  The counter
source is `none` when `fopen("/proc/net/dev", "r")` fails, in which case
the structured error line is emitted and `-1` is returned (lines 96-99);
otherwise the source is the list of all lines of the file, the first two
header lines are skipped (lines 105-106), and the collection loop stores
the eligible entries into the given array, returning their count.  The
result is (returned count, array contents after the call, emitted output
lines). -/
def read_interfaces (cfg : config) (arr : Nat → interface_t)
    (src : Option (List RawLine)) : Int × (Nat → interface_t) × List output_event :=
  match src with
  | none => (-1, arr, [output_event.error "Error" "Cannot open /proc/net/dev"])
  | some lines =>
    let collected := collect cfg (lines.drop 2) 0
    ((collected.length : Int), write_array arr collected, [])

/-- C `unsigned long long` addition: wraps modulo `2^64`. -/
def add64 (a b : Nat) : Nat := (a + b) % U64

/-- C `unsigned long long` subtraction `a - b`: wraps modulo `2^64`
(for `a b < 2^64` this is `(a + 2^64 - b) % 2^64`). -/
def sub64 (a b : Nat) : Nat := (a % U64 + (U64 - b % U64)) % U64

/-- Componentwise 64-bit addition of the two running totals
(`total_rx_rate += rx_rate; total_tx_rate += tx_rate;`,
src/main.c lines 175-176). -/
def add2 (a b : Nat × Nat) : Nat × Nat := (add64 a.1 b.1, add64 a.2 b.2)

/-- The per-matched-pair rate computation of src/main.c lines 170-173:
unsigned 64-bit subtraction of the stored counters followed by unsigned
division by the polling interval, for each direction. -/
def pair_rates (interval : Nat) (c p : interface_t) : Nat × Nat :=
  (sub64 c.rx_bytes p.rx_bytes / interval, sub64 c.tx_bytes p.tx_bytes / interval)

/-- The inner scan of src/main.c lines 168-178: starting at index `j` with
`fuel` indices left before the bound `count` is reached, return the first
index whose stored name equals `n` (`strcmp(...) == 0`, then `break`),
or `none` when the scan runs out. -/
def find_prev_from (prev : Nat → interface_t) (n : String) : Nat → Nat → Option Nat
  | _, 0 => none
  | j, fuel + 1 =>
    if (prev j).name == n then some j else find_prev_from prev n (j + 1) fuel

/-- The full inner scan `for (j = 0; j < count; j++)` of src/main.c
line 168. -/
def find_prev (prev : Nat → interface_t) (count : Nat) (n : String) : Option Nat :=
  find_prev_from prev n 0 count

/-- The function `calculate_and_output_rates` of src/main.c lines 161-183,
up to the final `output_json` call: for each index `i < count` of the
current array, scan the first `count` entries of the previous array for
the first name match; on a match add the pair's rates to the two running
totals, otherwise add nothing.  Note the single `count` argument bounds
both loops. -/
def calculate_and_output_rates (interval : Nat) (prev curr : Nat → interface_t)
    (count : Nat) : Nat × Nat :=
  (List.range count).foldl
    (fun tot i =>
      match find_prev prev count (curr i).name with
      | some j => add2 tot (pair_rates interval (curr i) (prev j))
      | none => tot)
    (0, 0)

/-- What one current entry adds to the totals: the matched pair's rates,
or zero when no entry among the first `count` previous entries has the
same name. -/
def contribution (interval : Nat) (prev curr : Nat → interface_t)
    (count i : Nat) : Nat × Nat :=
  match find_prev prev count (curr i).name with
  | some j => pair_rates interval (curr i) (prev j)
  | none => (0, 0)

/-- Modelled from the spec: the rate calculator as claim C1 words it,
`computeRates(previous, current, intervalSeconds)` searching the ENTIRE
previous snapshot (its own entry count) for each current interface.
Compared against `calculate_and_output_rates`, which bounds the scan of
the previous array by the single `count` argument (the current snapshot's
count). -/
def computeRates_claim (interval : Nat) (prev curr : List interface_t) : Nat × Nat :=
  curr.foldl
    (fun tot c =>
      match prev.find? (fun p => p.name == c.name) with
      | some p => add2 tot (pair_rates interval c p)
      | none => tot)
    (0, 0)

/-- Round the exact rational `n / d` to the nearest integer, ties to even:
the IEEE-754 default rounding used by binary64 operations and by glibc
`printf` decimal conversion. -/
def roundHE_div (n d : Nat) : Nat :=
  let q := n / d
  let r := n % d
  if 2 * r < d then q else if d < 2 * r then q + 1 else if q % 2 = 0 then q else q + 1

/-- Fuel-driven floor of the base-2 logarithm (`0` on fuel exhaustion;
`128` fuel covers every number below `2^128`, far above every value this
development reaches). -/
def floor_log2_go : Nat → Nat → Nat
  | 0, _ => 0
  | fuel + 1, n => if n < 2 then 0 else floor_log2_go fuel (n / 2) + 1

/-- Floor of the base-2 logarithm, the binade exponent of an IEEE-754
value `≥ 1`. -/
def floor_log2 (n : Nat) : Nat := floor_log2_go 128 n

/-- Scaling factor of the binary64 model: a double value `v ≥ 1` is
represented by the natural number `v * 2^52` (all doubles reached by
`format_human_readable` are `≥ 1`, hence integer multiples of
`2^(-52)`). -/
def SCALE : Nat := 2 ^ 52

/-- The conversion `(double)bytes` of src/main.c line 67: exact below
`2^53`, otherwise correctly rounded to the nearest multiple of
`2^(e-52)` in the binade `[2^e, 2^(e+1))`.  Result scaled by `2^52`. -/
def cast_to_double (n : Nat) : Nat :=
  let e := floor_log2 n
  if e ≤ 52 then n * SCALE
  else roundHE_div n (2 ^ (e - 52)) * 2 ^ (e - 52) * SCALE

/-- The division `value /= 1000.0` of src/main.c line 71 on a scaled
binary64 value `V ≥ 1000 * SCALE`: the exact quotient `V / 1000` (scaled)
rounded to the nearest representable double, i.e. to the nearest multiple
of `2^e` where `e` is the binade exponent of the quotient. -/
def double_div1000 (V : Nat) : Nat :=
  let e := floor_log2 (V / (DECIMAL_BASE * SCALE))
  roundHE_div V (DECIMAL_BASE * 2 ^ e) * 2 ^ e

/-- The unit suffix table of src/main.c line 59. -/
def units_list : List String := ["B", "K", "M", "G", "T", "P"]

/-- The scaling loop of src/main.c lines 70-73:
`while (value >= DECIMAL_BASE && unit_idx < num_units - 1)`.  The guard
`unit_idx < 5` bounds the iteration count by 5, so fuel 5 (the entry
value used by `format_human_readable`) never runs out before the guard
fails. -/
def scale_go : Nat → Nat → Nat → Nat × Nat
  | 0, v, idx => (v, idx)
  | fuel + 1, v, idx =>
    if DECIMAL_BASE * SCALE ≤ v ∧ idx < units_list.length - 1 then
      scale_go fuel (double_div1000 v) (idx + 1)
    else (v, idx)

/-- The rendering `snprintf(output, 16, "%.1f%s", value, ...)` of
src/main.c line 75 for a scaled binary64 value `V`: glibc converts the
exact value `V / 2^52` to one decimal place with correct rounding (ties
to even), producing the integer part, a dot, and one digit. -/
def render_fixed1 (V : Nat) : String :=
  let t := roundHE_div (10 * V) SCALE
  toString (t / 10) ++ "." ++ toString (t % 10)

/-- The function `format_human_readable` of src/main.c lines 58-76:
byte counts below `DECIMAL_BASE` are printed as a plain integer with the
unit `B` (`"%llu%s"`); otherwise the value is converted to double, scaled
down by the loop, and rendered with one decimal digit and the reached
unit suffix. -/
def format_human_readable (bytes : Nat) : String :=
  if bytes < DECIMAL_BASE then toString bytes ++ "B"
  else
    let p := scale_go 5 (cast_to_double bytes) 0
    render_fixed1 p.1 ++ units_list.getD p.2 ""

/-- Modelled from the spec: the output form claim C6 asserts for
`1000 ≤ b < 1000000`, a number with one digit after the decimal point
followed by `K` whose numeric value is `b / 1000` rounded to one decimal
place (ties to even; at the counterexample input every tie convention
agrees).  Compared against `format_human_readable`. -/
def format_claim_K (b : Nat) : String :=
  let t := roundHE_div (10 * b) DECIMAL_BASE
  toString (t / 10) ++ "." ++ toString (t % 10) ++ "K"

/-- The mutable state of `main` across loop iterations (src/main.c
lines 217-219): the two arrays and `prev_count`.  `curr_count` is local
to an iteration.  The array cells beyond the meaningful counts keep stale
contents, exactly as the C arrays do. -/
structure main_state where
  prev_interfaces : Nat → interface_t
  curr_interfaces : Nat → interface_t
  prev_count : Int

/-- The zero-initialised arrays of src/main.c lines 217-218. -/
def zero_array : Nat → interface_t := fun _ => zero_interface

/-- A C array holding the entries of `l` from index 0, zero elsewhere. -/
def arr_of (l : List interface_t) : Nat → interface_t :=
  fun i => l.getD i zero_interface

/-- One iteration of the steady loop of src/main.c lines 227-243, given
this cycle's view of the counter source: read into `curr_interfaces`;
if the returned count is `<= 0`, `continue` (state otherwise untouched);
otherwise emit the computed rates (the `prev_count > 0` guard of line 235),
copy the first `curr_count` entries of the current array over the previous
array (`memcpy`, lines 240-241) and set `prev_count = curr_count`.
Result: (state after the iteration, output lines of the iteration). -/
def step (cfg : config) (s : main_state) (src : Option (List RawLine)) :
    main_state × List output_event :=
  let r := read_interfaces cfg s.curr_interfaces src
  if r.1 ≤ 0 then ({ s with curr_interfaces := r.2.1 }, r.2.2)
  else
    let count := r.1.toNat
    let rates := calculate_and_output_rates cfg.polling_interval s.prev_interfaces r.2.1 count
    (⟨fun i => if i < count then r.2.1 i else s.prev_interfaces i, r.2.1, r.1⟩,
      r.2.2 ++
        (if 0 < s.prev_count then [output_event.sample rates.1 rates.2] else []))

/-- Finitely many iterations of the (unbounded) steady loop, one per
per-cycle source view, collecting all output lines in order. -/
def run_loop (cfg : config) (s : main_state) :
    List (Option (List RawLine)) → main_state × List output_event
  | [] => (s, [])
  | src :: rest =>
    let r := step cfg s src
    let r' := run_loop cfg r.1 rest
    (r'.1, r.2 ++ r'.2)

/-- The post-configuration part of `main` (src/main.c lines 217-245):
the initial read into the zeroed previous array (line 222); exit status 1
when it returns a count `<= 0` (lines 223-225); otherwise the steady loop
runs (here: for the given finite list of cycle sources).  Result: (`some`
exit status, or `none` when still running after those cycles, all output
lines emitted). -/
def main_model (cfg : config) (src0 : Option (List RawLine))
    (srcs : List (Option (List RawLine))) : Option Nat × List output_event :=
  let r0 := read_interfaces cfg zero_array src0
  if r0.1 ≤ 0 then (some 1, r0.2.2)
  else
    let s0 : main_state := ⟨r0.2.1, zero_array, r0.1⟩
    (none, r0.2.2 ++ (run_loop cfg s0 srcs).2)

/-
Helper lemmas.
-/

theorem U64_eq : U64 = 18446744073709551616 := by norm_num [U64]

theorem U64_pos : 0 < U64 := by rw [U64_eq]; omega

theorem starts_with_chars_iff (p : List Char) :
    ∀ s : List Char, starts_with_chars p s = true ↔ ∃ r, s = p ++ r := by
  induction p with
  | nil => intro s; simp [starts_with_chars]
  | cons a ps ih =>
    intro s
    cases s with
    | nil => simp [starts_with_chars]
    | cons c cs =>
      simp only [starts_with_chars, Bool.and_eq_true, beq_iff_eq, ih, List.cons_append,
        List.cons.injEq]
      constructor
      · rintro ⟨rfl, r, rfl⟩; exact ⟨r, rfl, rfl⟩
      · rintro ⟨r, rfl, rfl⟩; exact ⟨rfl, r, rfl⟩

theorem add2_zero (tot : Nat × Nat) (h1 : tot.1 < U64) (h2 : tot.2 < U64) :
    add2 tot (0, 0) = tot := by
  cases tot with
  | mk a b =>
    simp only [add2, add64, Nat.add_zero]
    simp_all [Nat.mod_eq_of_lt]

theorem add64_lt (a b : Nat) : add64 a b < U64 :=
  Nat.mod_lt _ U64_pos

theorem find_prev_from_none_iff (prev : Nat → interface_t) (n : String) :
    ∀ (fuel j : Nat), find_prev_from prev n j fuel = none ↔
      ∀ k, j ≤ k → k < j + fuel → (prev k).name ≠ n := by
  intro fuel
  induction fuel with
  | zero =>
    intro j
    constructor
    · intro _ k h1 h2; omega
    · intro _; rfl
  | succ fuel ih =>
    intro j
    simp only [find_prev_from]
    by_cases hb : ((prev j).name == n) = true
    · rw [if_pos hb]
      simp only [beq_iff_eq] at hb
      constructor
      · intro h; cases h
      · intro h; exact absurd hb (h j (Nat.le_refl j) (by omega))
    · rw [if_neg hb]
      simp only [beq_iff_eq] at hb
      rw [ih (j + 1)]
      constructor
      · intro h k h1 h2
        rcases Nat.eq_or_lt_of_le h1 with rfl | hlt
        · exact hb
        · exact h k hlt (by omega)
      · intro h k h1 h2
        exact h k (by omega) (by omega)

theorem find_prev_from_first (prev : Nat → interface_t) (n : String) :
    ∀ (fuel j j0 : Nat), j ≤ j0 → j0 < j + fuel → (prev j0).name = n →
      (∀ k, j ≤ k → k < j0 → (prev k).name ≠ n) →
      find_prev_from prev n j fuel = some j0 := by
  intro fuel
  induction fuel with
  | zero => intro j j0 h1 h2 _ _; omega
  | succ fuel ih =>
    intro j j0 h1 h2 h3 h4
    simp only [find_prev_from]
    by_cases hb : ((prev j).name == n) = true
    · rw [if_pos hb]
      simp only [beq_iff_eq] at hb
      have hj : j0 = j := by
        by_contra hne
        exact h4 j (Nat.le_refl j) (by omega) hb
      rw [hj]
    · rw [if_neg hb]
      simp only [beq_iff_eq] at hb
      have hj : j ≠ j0 := fun he => hb (he ▸ h3)
      exact ih (j + 1) j0 (by omega) (by omega) h3 (fun k hk1 hk2 => h4 k (by omega) hk2)

theorem calc_foldl_eq (interval : Nat) (prev curr : Nat → interface_t) (count : Nat) :
    ∀ (l : List Nat) (tot : Nat × Nat), tot.1 < U64 → tot.2 < U64 →
      l.foldl
        (fun tot i =>
          match find_prev prev count (curr i).name with
          | some j => add2 tot (pair_rates interval (curr i) (prev j))
          | none => tot) tot
      = (l.map (contribution interval prev curr count)).foldl add2 tot := by
  intro l
  induction l with
  | nil => intro tot _ _; rfl
  | cons i l ih =>
    intro tot h1 h2
    simp only [List.foldl_cons, List.map_cons]
    cases hf : find_prev prev count (curr i).name with
    | none =>
      have hc : contribution interval prev curr count i = (0, 0) := by
        simp [contribution, hf]
      rw [hc]
      simp only [hf]
      rw [add2_zero tot h1 h2]
      exact ih tot h1 h2
    | some j =>
      have hc : contribution interval prev curr count i
          = pair_rates interval (curr i) (prev j) := by
        simp [contribution, hf]
      rw [hc]
      simp only [hf]
      exact ih _ (add64_lt _ _) (add64_lt _ _)

theorem read_interfaces_no_sample (cfg : config) (arr : Nat → interface_t)
    (src : Option (List RawLine)) (r t : Nat) :
    output_event.sample r t ∉ (read_interfaces cfg arr src).2.2 := by
  cases src <;> simp [read_interfaces]

theorem read_interfaces_pos_no_output (cfg : config) (arr : Nat → interface_t)
    (src : Option (List RawLine)) (h : 0 < (read_interfaces cfg arr src).1) :
    (read_interfaces cfg arr src).2.2 = [] := by
  cases src with
  | none => simp [read_interfaces] at h
  | some lines => rfl

theorem collect_eq_take (cfg : config) :
    ∀ (lines : List RawLine) (count : Nat), count ≤ MAX_INTERFACES →
      collect cfg lines count
        = (lines.filterMap (parse_line cfg)).take (MAX_INTERFACES - count) := by
  intro lines
  induction lines with
  | nil => intro count _; simp [collect]
  | cons l ls ih =>
    intro count hc
    by_cases hfull : MAX_INTERFACES ≤ count
    · have : MAX_INTERFACES - count = 0 := by omega
      simp [collect, hfull, this]
    · cases hp : parse_line cfg l with
      | none => simp [collect, hfull, hp, ih count hc]
      | some itf =>
        have hm : MAX_INTERFACES - count = (MAX_INTERFACES - (count + 1)) + 1 := by omega
        simp [collect, hfull, hp, ih (count + 1) (by omega), hm]

/-
Claim theorems.
-/

/-- C2 (code_bug evidence): evaluation of the interval-option handling at
the failing inputs.  `atoi("-1") = -1` is converted to the `unsigned int`
value `2^32 - 1 = 4294967295`, which passes the `polling_interval < 1`
check, so a negative interval argument is accepted instead of rejected;
only arguments whose converted value is exactly zero (such as `"0"` or
unparsable text, where `atoi` yields 0) are rejected. -/
theorem set_polling_interval_negative_accepted :
    set_polling_interval (-1) = some 4294967295 ∧
    set_polling_interval (-5) = some 4294967291 ∧
    set_polling_interval 0 = none ∧
    set_polling_interval 2 = some 2 := by
  refine ⟨?_, ?_, ?_, ?_⟩ <;> decide

/-- C3 (counterexample): on a cycle whose source cannot be opened, the
emitted output of the cycle is NOT empty: `read_interfaces` itself prints
the structured error line (src/main.c lines 96-98) before the cycle is
skipped, contradicting the claimed silent skip. -/
theorem open_failure_not_silent :
    (step ⟨1, []⟩ ⟨zero_array, zero_array, 1⟩ none).2
      = [output_event.error "Error" "Cannot open /proc/net/dev"] ∧
    (step ⟨1, []⟩ ⟨zero_array, zero_array, 1⟩ none).2 ≠ [] := by
  constructor
  · rfl
  · intro h; cases h

/-- C3 (amended): when the counter source cannot be opened on a read after
the first, the cycle is skipped and retried at the next interval — the
loop state is left completely unchanged and no normal sample line is
produced — but the cycle does emit one structured error line from the
reader (the skip only suppresses the sample output). -/
theorem step_open_failure_skips_cycle (cfg : config) (s : main_state) :
    step cfg s none = (s, [output_event.error "Error" "Cannot open /proc/net/dev"]) :=
  rfl

/-- C8: the snapshot reader collects at most `MAX_INTERFACES = 32` entries:
the collection loop keeps exactly the earliest-parsed 32 matching lines
(`take 32` of all parsed entries in source order) and ignores every later
line, and the count returned by `read_interfaces` never exceeds 32. -/
theorem collect_cap_32 (cfg : config) (lines : List RawLine) :
    collect cfg lines 0 = (lines.filterMap (parse_line cfg)).take 32 ∧
    (collect cfg lines 0).length ≤ 32 ∧
    (∀ arr, (read_interfaces cfg arr (some lines)).1 ≤ 32) ∧
    MAX_INTERFACES = 32 := by
  have h := collect_eq_take cfg lines 0 (by omega)
  have h32 : MAX_INTERFACES - 0 = 32 := by norm_num [MAX_INTERFACES]
  rw [h32] at h
  have hlen : (collect cfg lines 0).length ≤ 32 := by
    rw [h]
    simp [List.length_take]
  refine ⟨h, hlen, ?_, by norm_num [MAX_INTERFACES]⟩
  intro arr
  have hc := collect_eq_take cfg (lines.drop 2) 0 (by omega)
  rw [h32] at hc
  simp only [read_interfaces, hc]
  have : ((((lines.drop 2).filterMap (parse_line cfg)).take 32).length) ≤ 32 := by
    simp [List.length_take]
  omega

/-- C1 (counterexample): the claim that the calculator searches the ENTIRE
previous snapshot fails when the previous snapshot holds more entries than
the single `count` argument (the current snapshot's count).  With previous
entries `eth1, eth2, eth3` (three entries) and current entry `eth3` (one
entry, so `count = 1`), the code scans only `prev[0]` and finds no match,
yielding totals `(0, 0)`, while the spec-worded calculator that searches
the whole previous snapshot finds `eth3` at index 2 and yields
`(100, 0)`. -/
theorem calc_scan_bound_counterexample :
    computeRates_claim 1 [⟨"eth1", 0, 0⟩, ⟨"eth2", 0, 0⟩, ⟨"eth3", 100, 0⟩]
        [⟨"eth3", 200, 0⟩] = (100, 0) ∧
    calculate_and_output_rates 1
        (arr_of [⟨"eth1", 0, 0⟩, ⟨"eth2", 0, 0⟩, ⟨"eth3", 100, 0⟩])
        (arr_of [⟨"eth3", 200, 0⟩]) 1 = (0, 0) ∧
    ((100, 0) : Nat × Nat) ≠ ((0, 0) : Nat × Nat) := by
  refine ⟨?_, ?_, ?_⟩ <;> decide

/-- C1 (amended): for every pair of arrays and every count, the rate
calculator, for every index `i < count` of the current array, scans the
first `count` entries of the previous array linearly (first match wins —
`count` being the single bound passed for both arrays, in the program the
current snapshot's count); a current entry with no name match among those
`count` entries contributes zero to both totals and causes no error, and
the totals are exactly the 64-bit sums of the per-entry contributions into
the two aggregates (rx, tx). -/
theorem calculate_and_output_rates_spec (interval : Nat)
    (prev curr : Nat → interface_t) (count : Nat) :
    calculate_and_output_rates interval prev curr count
      = ((List.range count).map (contribution interval prev curr count)).foldl add2 (0, 0) ∧
    (∀ i, (∀ j, j < count → (prev j).name ≠ (curr i).name) →
      contribution interval prev curr count i = (0, 0)) ∧
    (∀ i j, j < count → (prev j).name = (curr i).name →
      (∀ k, k < j → (prev k).name ≠ (curr i).name) →
      contribution interval prev curr count i = pair_rates interval (curr i) (prev j)) := by
  refine ⟨?_, ?_, ?_⟩
  · exact calc_foldl_eq interval prev curr count (List.range count) (0, 0) U64_pos U64_pos
  · intro i hno
    have hf : find_prev prev count (curr i).name = none := by
      rw [find_prev, find_prev_from_none_iff]
      intro k hk1 hk2
      exact hno k (by omega)
    simp [contribution, hf]
  · intro i j hj hname hfirst
    have hf : find_prev prev count (curr i).name = some j := by
      rw [find_prev]
      exact find_prev_from_first prev (curr i).name count 0 j (by omega) (by omega) hname
        (fun k hk1 hk2 => hfirst k hk2)
    simp [contribution, hf]

/-- Witness for `calculate_and_output_rates_spec`: at `count = 1` with a
previous entry named `eth9` and a current entry named `wlan1`, the current
entry is unmatched and contributes zero. -/
theorem calculate_and_output_rates_spec_witness :
    contribution 1 (arr_of [⟨"eth9", 5, 5⟩]) (arr_of [⟨"wlan1", 9, 9⟩]) 1 0 = (0, 0) :=
  (calculate_and_output_rates_spec 1 (arr_of [⟨"eth9", 5, 5⟩])
    (arr_of [⟨"wlan1", 9, 9⟩]) 1).2.1 0 (by
      intro j hj
      interval_cases j
      decide)

/-- C5: for every matched pair the per-direction rate is the unsigned
64-bit difference of the counters divided by the interval: for counters
below `2^64` the difference is `(a + (2^64 - b)) % 2^64`, which equals
`a - b` when no reset occurred and wraps to the very large value
`2^64 - (b - a)` when the current counter is smaller; and the worked
example (previous `rx 1000, tx 500`, current `rx 3000, tx 1500`,
interval 2) yields aggregate rates `(1000, 500)` through the full
calculator. -/
theorem rate_u64_wraparound (a b : Nat) (ha : a < U64) (hb : b < U64) :
    (∀ (interval : Nat) (c p : interface_t), pair_rates interval c p
      = (sub64 c.rx_bytes p.rx_bytes / interval, sub64 c.tx_bytes p.tx_bytes / interval)) ∧
    sub64 a b = (a + (U64 - b)) % U64 ∧
    (b ≤ a → sub64 a b = a - b) ∧
    (a < b → sub64 a b = U64 - (b - a)) ∧
    calculate_and_output_rates 2 (arr_of [⟨"eth0", 1000, 500⟩])
      (arr_of [⟨"eth0", 3000, 1500⟩]) 1 = (1000, 500) := by
  rw [U64_eq] at ha hb
  refine ⟨fun _ _ _ => rfl, ?_, ?_, ?_, by decide⟩
  · simp only [sub64, U64_eq]
    omega
  · intro h
    simp only [sub64, U64_eq]
    omega
  · intro h
    simp only [sub64, U64_eq]
    omega

/-- Witness for `rate_u64_wraparound`: a counter reset (current counter 1
below previous counter 2) wraps to `2^64 - 1`. -/
theorem rate_u64_wraparound_witness :
    sub64 1 2 = U64 - (2 - 1) :=
  (rate_u64_wraparound 1 2 (by rw [U64_eq]; omega) (by rw [U64_eq]; omega)).2.2.2.1
    (by omega)

/-- C7: the interface-inclusion decision.  With a configured non-empty
allow-list, a name is included exactly when it is an exact, case-sensitive
string match of some list entry; with no allow-list, a name is included
exactly when it begins with one of the prefixes `eth`, `wlan`, `enp`,
`wlp` (anchored at the start of the string); in particular `eth0` and
`wlan0` are included while `lo` and `docker0` are excluded. -/
theorem should_include_spec :
    (∀ (cfg : config) (name : String), cfg.interface_filter ≠ [] →
      (should_include cfg name = true ↔ name ∈ cfg.interface_filter)) ∧
    (∀ (cfg : config) (name : String), cfg.interface_filter = [] →
      (should_include cfg name = true ↔
        ((∃ r, name.toList = 'e' :: 't' :: 'h' :: r) ∨
         (∃ r, name.toList = 'w' :: 'l' :: 'a' :: 'n' :: r) ∨
         (∃ r, name.toList = 'e' :: 'n' :: 'p' :: r) ∨
         (∃ r, name.toList = 'w' :: 'l' :: 'p' :: r)))) ∧
    should_include ⟨1, []⟩ "eth0" = true ∧
    should_include ⟨1, []⟩ "wlan0" = true ∧
    should_include ⟨1, []⟩ "lo" = false ∧
    should_include ⟨1, []⟩ "docker0" = false := by
  refine ⟨?_, ?_, by decide, by decide, by decide, by decide⟩
  · intro cfg name hne
    have hlen : 0 < cfg.interface_filter.length := List.length_pos.mpr hne
    simp [should_include, hlen, filter_match, List.any_eq_true]
  · intro cfg name he
    have hlen : ¬ 0 < cfg.interface_filter.length := by simp [he]
    simp only [should_include, if_neg hlen, is_valid_interface, Bool.or_eq_true,
      starts_with_chars_iff]
    have e1 : "eth".toList = ['e', 't', 'h'] := rfl
    have e2 : "wlan".toList = ['w', 'l', 'a', 'n'] := rfl
    have e3 : "enp".toList = ['e', 'n', 'p'] := rfl
    have e4 : "wlp".toList = ['w', 'l', 'p'] := rfl
    rw [e1, e2, e3, e4]
    simp only [List.cons_append, List.nil_append]
    tauto

/-- Witness for `should_include_spec`: with allow-list `["eth0"]` the name
`eth0` is included by exact match. -/
theorem should_include_spec_witness :
    should_include ⟨1, ["eth0"]⟩ "eth0" = true :=
  (should_include_spec.1 ⟨1, ["eth0"]⟩ "eth0" (by decide)).2 (by decide)

/-- C4: in the steady loop, whenever a snapshot read fails or yields zero
interfaces (returned count `<= 0`), no normal sample output is produced
for that cycle, and the retained previous snapshot — both the whole
previous array and `prev_count` — is left completely unchanged, so the
next cycle diffs against the same previous snapshot. -/
theorem step_failed_read_keeps_prev (cfg : config) (s : main_state)
    (src : Option (List RawLine))
    (h : (read_interfaces cfg s.curr_interfaces src).1 ≤ 0) :
    (step cfg s src).1.prev_interfaces = s.prev_interfaces ∧
    (step cfg s src).1.prev_count = s.prev_count ∧
    ∀ r t, output_event.sample r t ∉ (step cfg s src).2 := by
  refine ⟨?_, ?_, ?_⟩
  · simp [step, if_pos h]
  · simp [step, if_pos h]
  · intro r t
    simp only [step, if_pos h]
    exact read_interfaces_no_sample cfg s.curr_interfaces src r t

/-- Witness for `step_failed_read_keeps_prev`: a successfully opened but
empty source yields zero interfaces and leaves the previous snapshot
untouched. -/
theorem step_failed_read_keeps_prev_witness :
    (read_interfaces ⟨1, []⟩ (⟨zero_array, zero_array, 1⟩ : main_state).curr_interfaces
        (some [])).1 ≤ 0 ∧
    (step ⟨1, []⟩ ⟨zero_array, zero_array, 1⟩ (some [])).1.prev_interfaces
      = (⟨zero_array, zero_array, 1⟩ : main_state).prev_interfaces ∧
    (step ⟨1, []⟩ ⟨zero_array, zero_array, 1⟩ (some [])).1.prev_count
      = (⟨zero_array, zero_array, 1⟩ : main_state).prev_count :=
  ⟨by decide,
   (step_failed_read_keeps_prev ⟨1, []⟩ ⟨zero_array, zero_array, 1⟩ (some []) (by decide)).1,
   (step_failed_read_keeps_prev ⟨1, []⟩ ⟨zero_array, zero_array, 1⟩ (some []) (by decide)).2.1⟩

/-- C9: if the very first snapshot read at startup fails or yields zero
interfaces (returned count `<= 0`), the process exits with status 1
without entering the polling loop — the result is the same for every list
of later cycle sources, whose effect is never consulted — and without
emitting any normal sample output. -/
theorem main_model_first_read_failure_exits (cfg : config)
    (src0 : Option (List RawLine))
    (h : (read_interfaces cfg zero_array src0).1 ≤ 0) :
    ∀ srcs, main_model cfg src0 srcs
        = (some 1, (read_interfaces cfg zero_array src0).2.2) ∧
      ∀ r t, output_event.sample r t ∉ (main_model cfg src0 srcs).2 := by
  intro srcs
  have he : main_model cfg src0 srcs
      = (some 1, (read_interfaces cfg zero_array src0).2.2) := by
    simp only [main_model, if_pos h]
  refine ⟨he, ?_⟩
  intro r t
  rw [he]
  exact read_interfaces_no_sample cfg zero_array src0 r t

/-- Witness for `main_model_first_read_failure_exits`: an unopenable
source on the first read exits with status 1, the single output line
being the reader's error line. -/
theorem main_model_first_read_failure_exits_witness :
    main_model ⟨1, []⟩ none []
      = (some 1, [output_event.error "Error" "Cannot open /proc/net/dev"]) :=
  (main_model_first_read_failure_exits ⟨1, []⟩ none (by decide) []).1

/-- C10: once the initial snapshot read has succeeded, the retained
`prev_count` is at least 1 at every later loop iteration: one step
preserves `1 ≤ prev_count` (it is only ever replaced by a strictly
positive count), hence so does any number of steps, and from such a state
every successful steady-state read emits exactly one output line — one
normal sample line and nothing else. -/
theorem prev_count_invariant (cfg : config) :
    (∀ (s : main_state) (src : Option (List RawLine)),
      1 ≤ s.prev_count → 1 ≤ (step cfg s src).1.prev_count) ∧
    (∀ (s : main_state) (srcs : List (Option (List RawLine))),
      1 ≤ s.prev_count → 1 ≤ (run_loop cfg s srcs).1.prev_count) ∧
    (∀ (s : main_state) (src : Option (List RawLine)),
      1 ≤ s.prev_count → 0 < (read_interfaces cfg s.curr_interfaces src).1 →
      ∃ r t, (step cfg s src).2 = [output_event.sample r t]) := by
  have hstep : ∀ (s : main_state) (src : Option (List RawLine)),
      1 ≤ s.prev_count → 1 ≤ (step cfg s src).1.prev_count := by
    intro s src hs
    by_cases h : (read_interfaces cfg s.curr_interfaces src).1 ≤ 0
    · simpa [step, if_pos h] using hs
    · simp only [step, if_neg h]
      omega
  refine ⟨hstep, ?_, ?_⟩
  · intro s srcs
    induction srcs generalizing s with
    | nil => intro hs; simpa [run_loop] using hs
    | cons src rest ih =>
      intro hs
      simp only [run_loop]
      exact ih _ (hstep s src hs)
  · intro s src hs hpos
    have hout := read_interfaces_pos_no_output cfg s.curr_interfaces src hpos
    have hneg : ¬ (read_interfaces cfg s.curr_interfaces src).1 ≤ 0 := by omega
    have hpc : 0 < s.prev_count := by omega
    refine ⟨(calculate_and_output_rates cfg.polling_interval s.prev_interfaces
        (read_interfaces cfg s.curr_interfaces src).2.1
        (read_interfaces cfg s.curr_interfaces src).1.toNat).1,
      (calculate_and_output_rates cfg.polling_interval s.prev_interfaces
        (read_interfaces cfg s.curr_interfaces src).2.1
        (read_interfaces cfg s.curr_interfaces src).1.toNat).2, ?_⟩
    simp only [step, if_neg hneg, hout, List.nil_append, if_pos hpc]

/-- Witness for `prev_count_invariant`: after a successful read of one
`eth0` line from a primed state, `prev_count` stays at least 1 and the
cycle emits exactly one sample line. -/
theorem prev_count_invariant_witness :
    1 ≤ (step ⟨1, []⟩ ⟨zero_array, zero_array, 1⟩
        (some [⟨false, "", []⟩, ⟨false, "", []⟩,
          ⟨true, "eth0", [5, 0, 0, 0, 0, 0, 0, 0, 7, 0, 0, 0, 0, 0, 0, 0]⟩])).1.prev_count ∧
    ∃ r t, (step ⟨1, []⟩ ⟨zero_array, zero_array, 1⟩
        (some [⟨false, "", []⟩, ⟨false, "", []⟩,
          ⟨true, "eth0", [5, 0, 0, 0, 0, 0, 0, 0, 7, 0, 0, 0, 0, 0, 0, 0]⟩])).2
      = [output_event.sample r t] :=
  ⟨(prev_count_invariant ⟨1, []⟩).1 ⟨zero_array, zero_array, 1⟩
      (some [⟨false, "", []⟩, ⟨false, "", []⟩,
        ⟨true, "eth0", [5, 0, 0, 0, 0, 0, 0, 0, 7, 0, 0, 0, 0, 0, 0, 0]⟩]) (by decide),
   (prev_count_invariant ⟨1, []⟩).2.2 ⟨zero_array, zero_array, 1⟩
      (some [⟨false, "", []⟩, ⟨false, "", []⟩,
        ⟨true, "eth0", [5, 0, 0, 0, 0, 0, 0, 0, 7, 0, 0, 0, 0, 0, 0, 0]⟩])
      (by decide) (by decide)⟩

/-
Formatter lemmas: decimal digits of `toString`, rounding bounds, and the
binary64 scaling facts needed for claim C6.
-/

theorem digitChar_isDigit (n : Nat) (h : n < 10) : (Nat.digitChar n).isDigit = true := by
  interval_cases n <;> decide

theorem toDigitsCore_isDigit :
    ∀ (fuel n : Nat) (ds : List Char), (∀ c ∈ ds, c.isDigit = true) →
      ∀ c ∈ Nat.toDigitsCore 10 fuel n ds, c.isDigit = true := by
  intro fuel
  induction fuel with
  | zero => exact fun n ds h c hc => h c hc
  | succ fuel ih =>
    intro n ds h c hc
    have hd : ∀ x ∈ (Nat.digitChar (n % 10) :: ds), x.isDigit = true := by
      intro x hx
      rcases List.mem_cons.mp hx with rfl | hx
      · exact digitChar_isDigit _ (Nat.mod_lt _ (by omega))
      · exact h x hx
    simp only [Nat.toDigitsCore] at hc
    by_cases h10 : n / 10 = 0
    · rw [if_pos h10] at hc
      exact hd c hc
    · rw [if_neg h10] at hc
      exact ih _ _ hd c hc

theorem natToString_no_dot (n : Nat) : '.' ∉ (toString n).toList := by
  intro hmem
  have h : '.' ∈ Nat.toDigitsCore 10 (n + 1) n [] := hmem
  have := toDigitsCore_isDigit (n + 1) n [] (by simp) '.' h
  simp [Char.isDigit] at this

theorem roundHE_div_le (n d : Nat) : roundHE_div n d ≤ n / d + 1 := by
  simp only [roundHE_div]
  split
  · omega
  · split
    · omega
    · split <;> omega

theorem roundHE_div_half (n d : Nat) (hd : 0 < d) :
    2 * n ≤ 2 * (d * roundHE_div n d) + d ∧
    2 * (d * roundHE_div n d) ≤ 2 * n + d := by
  have hmod : d * (n / d) + n % d = n := Nat.div_add_mod n d
  have hlt : n % d < d := Nat.mod_lt _ hd
  simp only [roundHE_div]
  generalize hR : n % d = r at *
  generalize hQ : n / d = q at *
  have hsucc : d * (q + 1) = d * q + d := by ring
  split
  · generalize d * q = P at hmod ⊢
    omega
  · split
    · simp only [hsucc]
      generalize d * q = P at hmod ⊢
      omega
    · split
      · generalize d * q = P at hmod ⊢
        omega
      · simp only [hsucc]
        generalize d * q = P at hmod ⊢
        omega

theorem floor_log2_go_bounds :
    ∀ (fuel n : Nat), 1 ≤ n → n < 2 ^ fuel →
      2 ^ floor_log2_go fuel n ≤ n ∧ n < 2 ^ (floor_log2_go fuel n + 1) := by
  intro fuel
  induction fuel with
  | zero =>
    intro n h1 h2
    norm_num at h2
    omega
  | succ fuel ih =>
    intro n h1 h2
    by_cases hn : n < 2
    · simp only [floor_log2_go, if_pos hn]
      constructor
      · simpa using h1
      · simpa using hn
    · simp only [floor_log2_go, if_neg hn]
      have hh1 : 1 ≤ n / 2 := by omega
      have hh2 : n / 2 < 2 ^ fuel := by
        have he : 2 ^ (fuel + 1) = 2 * 2 ^ fuel := by ring
        omega
      obtain ⟨ihl, ihr⟩ := ih (n / 2) hh1 hh2
      have e1 : 2 ^ (floor_log2_go fuel (n / 2) + 1)
          = 2 * 2 ^ floor_log2_go fuel (n / 2) := by ring
      have e2 : 2 ^ (floor_log2_go fuel (n / 2) + 1 + 1)
          = 2 * 2 ^ (floor_log2_go fuel (n / 2) + 1) := by ring
      constructor <;> omega

theorem floor_log2_bounds (n : Nat) (h1 : 1 ≤ n) (h2 : n < 2 ^ 128) :
    2 ^ floor_log2 n ≤ n ∧ n < 2 ^ (floor_log2 n + 1) :=
  floor_log2_go_bounds 128 n h1 h2

theorem cast_to_double_small (b : Nat) (h1 : 1 ≤ b) (h2 : b < 2 ^ 53) :
    cast_to_double b = b * SCALE := by
  have hb := floor_log2_bounds b h1 (lt_trans h2 (by norm_num))
  have he : floor_log2 b ≤ 52 := by
    by_contra hc
    push_neg at hc
    have hp : (2 : Nat) ^ 53 ≤ 2 ^ floor_log2 b := Nat.pow_le_pow_right (by omega) (by omega)
    omega
  simp [cast_to_double, if_pos he]

theorem div1000_exp_le (b : Nat) (h1 : 1000 ≤ b) (h2 : b ≤ 999999) :
    floor_log2 (b * SCALE / (1000 * SCALE)) ≤ 9 := by
  have hS : 0 < SCALE := by norm_num [SCALE]
  have hdiv : b * SCALE / (1000 * SCALE) = b / 1000 := by
    rw [mul_comm b SCALE, mul_comm 1000 SCALE]
    exact Nat.mul_div_mul_left b 1000 hS
  rw [hdiv]
  have hq1 : 1 ≤ b / 1000 := by omega
  have hq2 : b / 1000 < 2 ^ 128 := by
    have hq : b / 1000 < 1000 := by omega
    calc b / 1000 < 1000 := hq
      _ ≤ 2 ^ 128 := by norm_num
  have hb := floor_log2_bounds (b / 1000) hq1 hq2
  by_contra hc
  push_neg at hc
  have habs : (1024 : Nat) ≤ 999 := by
    calc (1024 : Nat) = 2 ^ 10 := by norm_num
      _ ≤ 2 ^ floor_log2 (b / 1000) := Nat.pow_le_pow_right (by omega) (by omega)
      _ ≤ b / 1000 := hb.1
      _ ≤ 999 := by omega
  omega

theorem double_div1000_lt (b : Nat) (h1 : 1000 ≤ b) (h2 : b ≤ 999999) :
    double_div1000 (b * SCALE) < 1000 * SCALE := by
  have hDB : DECIMAL_BASE = 1000 := rfl
  simp only [double_div1000, hDB]
  set e := floor_log2 (b * SCALE / (1000 * SCALE)) with hedef
  have he9 : e ≤ 9 := div1000_exp_le b h1 h2
  have h2e : (2 : Nat) ^ e ≤ 512 := by
    calc (2 : Nat) ^ e ≤ 2 ^ 9 := Nat.pow_le_pow_right (by omega) he9
      _ = 512 := by norm_num
  have hdpos : 0 < 1000 * 2 ^ e := by positivity
  have hk := roundHE_div_le (b * SCALE) (1000 * 2 ^ e)
  have step1 : roundHE_div (b * SCALE) (1000 * 2 ^ e) * 2 ^ e
      ≤ b * SCALE / (1000 * 2 ^ e) * 2 ^ e + 2 ^ e := by
    calc roundHE_div (b * SCALE) (1000 * 2 ^ e) * 2 ^ e
        ≤ (b * SCALE / (1000 * 2 ^ e) + 1) * 2 ^ e := Nat.mul_le_mul_right _ hk
      _ = b * SCALE / (1000 * 2 ^ e) * 2 ^ e + 2 ^ e := by ring
  have step2 : b * SCALE / (1000 * 2 ^ e) * 2 ^ e ≤ b * SCALE / 1000 := by
    rw [← Nat.div_div_eq_div_mul]
    exact Nat.div_mul_le_self _ _
  have step3 : b * SCALE / 1000 ≤ 999999 * SCALE / 1000 :=
    Nat.div_le_div_right (Nat.mul_le_mul_right SCALE h2)
  have hfin : 999999 * SCALE / 1000 + 512 < 1000 * SCALE := by decide
  calc roundHE_div (b * SCALE) (1000 * 2 ^ e) * 2 ^ e
      ≤ b * SCALE / (1000 * 2 ^ e) * 2 ^ e + 2 ^ e := step1
    _ ≤ b * SCALE / 1000 + 512 := Nat.add_le_add step2 h2e
    _ ≤ 999999 * SCALE / 1000 + 512 := Nat.add_le_add_right step3 512
    _ < 1000 * SCALE := hfin

theorem double_div1000_half (b : Nat) (h1 : 1000 ≤ b) (h2 : b ≤ 999999) :
    2 * (b * SCALE) ≤ 2 * (1000 * double_div1000 (b * SCALE)) + 512000 ∧
    2 * (1000 * double_div1000 (b * SCALE)) ≤ 2 * (b * SCALE) + 512000 := by
  have hDB : DECIMAL_BASE = 1000 := rfl
  simp only [double_div1000, hDB]
  set e := floor_log2 (b * SCALE / (1000 * SCALE)) with hedef
  have he9 : e ≤ 9 := div1000_exp_le b h1 h2
  have h2e : (2 : Nat) ^ e ≤ 512 := by
    calc (2 : Nat) ^ e ≤ 2 ^ 9 := Nat.pow_le_pow_right (by omega) he9
      _ = 512 := by norm_num
  have hdpos : 0 < 1000 * 2 ^ e := by positivity
  have hh := roundHE_div_half (b * SCALE) (1000 * 2 ^ e) hdpos
  set k := roundHE_div (b * SCALE) (1000 * 2 ^ e) with hkdef
  have hassoc : 1000 * 2 ^ e * k = 1000 * (k * 2 ^ e) := by ring
  rw [hassoc] at hh
  have hde : 1000 * 2 ^ e ≤ 512000 := by
    calc 1000 * 2 ^ e ≤ 1000 * 512 := Nat.mul_le_mul_left 1000 h2e
      _ = 512000 := by norm_num
  constructor
  · calc 2 * (b * SCALE) ≤ 2 * (1000 * (k * 2 ^ e)) + 1000 * 2 ^ e := hh.1
      _ ≤ 2 * (1000 * (k * 2 ^ e)) + 512000 := Nat.add_le_add_left hde _
  · calc 2 * (1000 * (k * 2 ^ e)) ≤ 2 * (b * SCALE) + 1000 * 2 ^ e := hh.2
      _ ≤ 2 * (b * SCALE) + 512000 := Nat.add_le_add_left hde _

theorem scale_go_step (fuel v idx : Nat)
    (h : DECIMAL_BASE * SCALE ≤ v ∧ idx < units_list.length - 1) :
    scale_go (fuel + 1) v idx = scale_go fuel (double_div1000 v) (idx + 1) := by
  simp only [scale_go, if_pos h]

theorem scale_go_stop (fuel v idx : Nat)
    (h : ¬(DECIMAL_BASE * SCALE ≤ v ∧ idx < units_list.length - 1)) :
    scale_go (fuel + 1) v idx = (v, idx) := by
  simp only [scale_go, if_neg h]

/-- C6 (counterexample): at `b = 1150` the formatter prints `"1.1K"`,
while `b / 1000 = 1.15` rounded to one decimal place is `1.2` (under
round-half-up, third conjunct, as well as round-half-even, second
conjunct), because `1.15` is not representable in binary64: the double
`1150.0 / 1000.0` is strictly below `1.15` and glibc `printf` rounds it
down to `1.1`. -/
theorem format_1150_counterexample :
    format_human_readable 1150 = "1.1K" ∧
    format_claim_K 1150 = "1.2K" ∧
    (10 * 1150 + 500) / 1000 = 12 ∧
    format_human_readable 1150 ≠ format_claim_K 1150 := by
  refine ⟨by decide, by decide, by decide, by decide⟩

/-- C6 (amended): for every byte count `b < 1000` the formatter renders
`b` as a plain integer (decimal digits only, no decimal point) followed
by `B`; for `1000 ≤ b < 1000000` the output is the one-decimal rendering
of the binary64 quotient `b / 1000.0` followed by `K`, whose tenths value
`t` satisfies `|100 * t - b| ≤ 50`, i.e. it equals `b / 1000` rounded to
one decimal place except that within a half-way tie the binary64 rounding
of the quotient decides the direction (e.g. `format(1150) = "1.1K"`);
and `format(1000) = "1.0K"`, `format(999) = "999B"`. -/
theorem format_human_readable_spec :
    (∀ b : Nat, b < 1000 →
      format_human_readable b = toString b ++ "B" ∧ '.' ∉ (toString b).toList) ∧
    (∀ b : Nat, 1000 ≤ b → b < 1000000 →
      format_human_readable b = render_fixed1 (double_div1000 (b * SCALE)) ++ "K" ∧
      roundHE_div (10 * double_div1000 (b * SCALE)) SCALE * 100 ≤ b + 50 ∧
      b ≤ roundHE_div (10 * double_div1000 (b * SCALE)) SCALE * 100 + 50) ∧
    format_human_readable 1000 = "1.0K" ∧
    format_human_readable 999 = "999B" := by
  refine ⟨?_, ?_, by decide, by decide⟩
  · intro b hb
    have hlt : b < DECIMAL_BASE := hb
    constructor
    · simp [format_human_readable, if_pos hlt]
    · exact natToString_no_dot b
  · intro b hb1 hb2
    have hb2' : b ≤ 999999 := by omega
    have hcast : cast_to_double b = b * SCALE :=
      cast_to_double_small b (by omega) (by
        calc b < 1000000 := hb2
          _ < 2 ^ 53 := by norm_num)
    have hDB : DECIMAL_BASE = 1000 := rfl
    have hlt : ¬ b < DECIMAL_BASE := by omega
    have hguard1 : DECIMAL_BASE * SCALE ≤ b * SCALE ∧ 0 < units_list.length - 1 := by
      refine ⟨Nat.mul_le_mul_right SCALE (by omega), by decide⟩
    have hvlt := double_div1000_lt b hb1 hb2'
    have hguard2 :
        ¬(DECIMAL_BASE * SCALE ≤ double_div1000 (b * SCALE) ∧ 1 < units_list.length - 1) := by
      intro hand
      exact absurd hand.1 (not_le.mpr hvlt)
    have heq : format_human_readable b
        = render_fixed1 (double_div1000 (b * SCALE)) ++ "K" := by
      simp only [format_human_readable, if_neg hlt, hcast]
      have e5 : (5 : Nat) = 4 + 1 := rfl
      have e4 : (4 : Nat) = 3 + 1 := rfl
      rw [e5, scale_go_step 4 (b * SCALE) 0 hguard1, e4,
        scale_go_stop 3 (double_div1000 (b * SCALE)) 1 hguard2]
      rfl
    refine ⟨heq, ?_, ?_⟩ <;>
    · have hhalfV := double_div1000_half b hb1 hb2'
      have hSpos : 0 < SCALE := by norm_num [SCALE]
      have hhalfT := roundHE_div_half (10 * double_div1000 (b * SCALE)) SCALE hSpos
      set V := double_div1000 (b * SCALE) with hV
      set t := roundHE_div (10 * V) SCALE with ht
      have hS : SCALE = 4503599627370496 := by norm_num [SCALE]
      rw [hS] at hhalfV hhalfT
      omega

/-- Witness for `format_human_readable_spec`: instantiations at `b = 500`
(plain-integer branch) and `b = 1500` (scaled branch). -/
theorem format_human_readable_spec_witness :
    format_human_readable 500 = toString 500 ++ "B" ∧
    format_human_readable 1500 = render_fixed1 (double_div1000 (1500 * SCALE)) ++ "K" ∧
    roundHE_div (10 * double_div1000 (1500 * SCALE)) SCALE * 100 ≤ 1500 + 50 :=
  ⟨(format_human_readable_spec.1 500 (by decide)).1,
   (format_human_readable_spec.2.1 1500 (by decide) (by decide)).1,
   (format_human_readable_spec.2.1 1500 (by decide) (by decide)).2.1⟩

end Netspeed
